import Mathlib

/-!
Verification of the recipe composition and lineage core of the prepper
backend against its natural-language specification.

The development shallowly embeds the relevant Python services:
  * `app/utils/unit_conversion.py`     (unit conversion helper)
  * `app/domain/costing_service.py`    (cost roll-up)
  * `app/domain/subrecipe_service.py`  (BOM edges, cycle detection, reorder)
  * `app/domain/recipe_service.py`     (version lineage tree with masking)

Python floats are modelled as rationals, `datetime` columns as natural
numbers, and database tables as lists of rows looked up by primary key.
SQL `ORDER BY` is modelled by a stable insertion sort on the requested
key.  Loops whose termination depends on the data (the upward lineage
walk and the descendant collection) are modelled with an explicit fuel
argument, `none` standing for a run that never finishes; loops that the
source bounds with a visited set are modelled by well-founded recursion
on that same visited set.
-/

/-- Recipe lifecycle status (`RecipeStatus` in `models/recipe.py`). -/
inductive RecipeStatus where
  | draft
  | active
  | archived
  deriving DecidableEq, Repr

/-- Valid units for sub-recipe quantities (`SubRecipeUnit` in `models/recipe_recipe.py`). -/
inductive SubRecipeUnit where
  | portion
  | batch
  | gram
  | milliliter
  deriving DecidableEq, Repr

/-- A row of the `recipes` table (`Recipe` in `models/recipe.py`).
Timestamps are modelled as naturals, floats as rationals, the opaque
JSON instruction blob as an optional string. -/
structure Recipe where
  id : ℕ
  name : String
  yield_quantity : ℚ
  yield_unit : String
  is_prep_recipe : Bool
  instructions_raw : Option String
  instructions_structured : Option String
  cost_price : Option ℚ
  selling_price_est : Option ℚ
  status : RecipeStatus
  is_public : Bool
  owner_id : Option String
  version : ℕ
  root_id : Option ℕ
  description : Option String
  image_url : Option String
  summary_feedback : Option String
  created_by : Option String
  updated_by : Option String
  rnd_started : Bool
  review_ready : Bool
  created_at : ℕ
  updated_at : ℕ
  deriving DecidableEq, Repr

/-- A row of the `ingredients` table (`Ingredient` in `models/ingredient.py`). -/
structure Ingredient where
  id : ℕ
  name : String
  base_unit : String
  cost_per_base_unit : Option ℚ
  is_active : Bool
  deriving DecidableEq, Repr

/-- A row of the `recipe_ingredients` table (`RecipeIngredient` in
`models/recipe_ingredient.py`). -/
structure RecipeIngredient where
  id : ℕ
  recipe_id : ℕ
  ingredient_id : ℕ
  quantity : ℚ
  unit : String
  sort_order : ℕ
  deriving DecidableEq, Repr

/-- A row of the `recipe_recipes` table (`RecipeRecipe` in
`models/recipe_recipe.py`): one BOM edge from a parent recipe to a
child (sub-)recipe. -/
structure BomEdge where
  id : ℕ
  parent_recipe_id : ℕ
  child_recipe_id : ℕ
  quantity : ℚ
  unit : SubRecipeUnit
  position : ℕ
  deriving DecidableEq, Repr

/-- Cost breakdown line (`CostBreakdownItem` in `models/costing.py`). -/
structure CostBreakdownItem where
  ingredient_id : ℕ
  ingredient_name : String
  quantity : ℚ
  unit : String
  quantity_in_base_unit : ℚ
  base_unit : String
  cost_per_base_unit : Option ℚ
  wastage_percentage : ℚ
  adjusted_cost_per_unit : Option ℚ
  line_cost : Option ℚ
  deriving DecidableEq, Repr

/-- Sub-recipe cost line (`SubRecipeCostItem` in `models/costing.py`).
Declared by the source but never constructed by the costing service. -/
structure SubRecipeCostItem where
  link_id : ℕ
  recipe_id : ℕ
  recipe_name : String
  quantity : ℚ
  unit : String
  sub_recipe_batch_cost : Option ℚ
  sub_recipe_portion_cost : Option ℚ
  line_cost : Option ℚ
  deriving DecidableEq, Repr

/-- Complete costing result (`CostingResult` in `models/costing.py`). -/
structure CostingResult where
  recipe_id : ℕ
  recipe_name : String
  yield_quantity : ℚ
  yield_unit : String
  breakdown : List CostBreakdownItem
  sub_recipe_breakdown : List SubRecipeCostItem
  ingredient_cost : Option ℚ
  sub_recipe_cost : Option ℚ
  total_batch_cost : Option ℚ
  cost_per_portion : Option ℚ
  missing_costs : List String
  deriving DecidableEq, Repr

/-! ## Unit conversion helper (`app/utils/unit_conversion.py`) -/

/-- `MASS_CONVERSIONS`: factors to grams. -/
def MASS_CONVERSIONS : List (String × ℚ) :=
  [("g", 1), ("kg", 1000), ("mg", 0.001), ("oz", 28.3495), ("lb", 453.592)]

/-- `VOLUME_CONVERSIONS`: factors to milliliters. -/
def VOLUME_CONVERSIONS : List (String × ℚ) :=
  [("ml", 1), ("l", 1000), ("cl", 10), ("dl", 100), ("tsp", 4.92892),
   ("tbsp", 14.7868), ("cup", 236.588), ("fl_oz", 29.5735)]

/-- `COUNT_CONVERSIONS`: factors to pieces. -/
def COUNT_CONVERSIONS : List (String × ℚ) :=
  [("pcs", 1), ("dozen", 12)]

/-- Python `str.lower()`, modelled characterwise (all unit strings in
the source are ASCII). -/
def string_lower (s : String) : String :=
  String.mk (s.data.map Char.toLower)

/-- `get_unit_category`: the category of a unit, lowercased, or `none`
for an unrecognized unit. -/
def get_unit_category (unit : String) : Option String :=
  let unitLower := string_lower unit
  if (MASS_CONVERSIONS.lookup unitLower).isSome then some "mass"
  else if (VOLUME_CONVERSIONS.lookup unitLower).isSome then some "volume"
  else if (COUNT_CONVERSIONS.lookup unitLower).isSome then some "count"
  else none

/-- `convert_to_base_unit`: convert a quantity from one unit to the
ingredient base unit; `none` signals incompatible categories. -/
def convert_to_base_unit (quantity : ℚ) (from_unit to_base_unit : String) : Option ℚ :=
  let fromUnitLower := string_lower from_unit
  let toBaseLower := string_lower to_base_unit
  if fromUnitLower = toBaseLower then some quantity
  else
    match get_unit_category fromUnitLower, get_unit_category toBaseLower with
    | none, _ => some quantity
    | _, none => some quantity
    | some fromCategory, some toCategory =>
      if fromCategory ≠ toCategory then none
      else
        let conversions :=
          if fromCategory = "mass" then MASS_CONVERSIONS
          else if fromCategory = "volume" then VOLUME_CONVERSIONS
          else COUNT_CONVERSIONS
        let fromFactor := (conversions.lookup fromUnitLower).getD 1
        let toFactor := (conversions.lookup toBaseLower).getD 1
        some (quantity * fromFactor / toFactor)

/-! ## Costing service (`app/domain/costing_service.py`) -/

/-- The database state the costing service reads: the `recipes`,
`recipe_ingredients`, `ingredients` and `recipe_recipes` tables. -/
structure CostDB where
  recipes : List Recipe
  recipeIngredients : List RecipeIngredient
  ingredients : List Ingredient
  recipeRecipes : List BomEdge
  deriving Repr

/-- Primary-key lookup in the `recipes` table (`session.get(Recipe, id)`). -/
def find_recipe (store : List Recipe) (recipeId : ℕ) : Option Recipe :=
  store.find? (fun r => r.id = recipeId)

/-- Primary-key lookup in the `ingredients` table. -/
def find_ingredient (store : List Ingredient) (ingredientId : ℕ) : Option Ingredient :=
  store.find? (fun i => i.id = ingredientId)

/-- Ordering used by `get_recipe_ingredients` (`ORDER BY sort_order`). -/
def sort_order_le (a b : RecipeIngredient) : Prop :=
  a.sort_order ≤ b.sort_order

instance : DecidableRel sort_order_le := fun a b =>
  inferInstanceAs (Decidable (a.sort_order ≤ b.sort_order))

/-- `RecipeService.get_recipe_ingredients`: the recipe's ingredient
lines ordered by `sort_order`. -/
def get_recipe_ingredients (db : CostDB) (recipeId : ℕ) : List RecipeIngredient :=
  List.insertionSort sort_order_le
    (db.recipeIngredients.filter (fun ri => ri.recipe_id = recipeId))

/-- Accumulator of the costing loop: breakdown so far, running total of
known line costs, names with missing costs. -/
structure CostAcc where
  breakdown : List CostBreakdownItem
  total_cost : ℚ
  missing_costs : List String
  deriving DecidableEq, Repr

/-- One iteration of the loop in `calculate_recipe_cost`: a line whose
ingredient row is absent is skipped outright; otherwise the line cost is
known exactly when both the unit conversion and the ingredient cost are. -/
def cost_line (db : CostDB) (acc : CostAcc) (ri : RecipeIngredient) : CostAcc :=
  match find_ingredient db.ingredients ri.ingredient_id with
  | none => acc
  | some ingredient =>
    let quantityInBase := convert_to_base_unit ri.quantity ri.unit ingredient.base_unit
    let lineCost : Option ℚ :=
      match ingredient.cost_per_base_unit, quantityInBase with
      | some c, some q => some (q * c)
      | _, _ => none
    let item : CostBreakdownItem :=
      { ingredient_id := ingredient.id
        ingredient_name := ingredient.name
        quantity := ri.quantity
        unit := ri.unit
        -- `quantity_in_base or ri.quantity`: Python `or` also replaces 0.0
        quantity_in_base_unit :=
          match quantityInBase with
          | some q => if q = 0 then ri.quantity else q
          | none => ri.quantity
        base_unit := ingredient.base_unit
        cost_per_base_unit := ingredient.cost_per_base_unit
        wastage_percentage := 0
        adjusted_cost_per_unit := none
        line_cost := lineCost }
    { breakdown := acc.breakdown ++ [item]
      total_cost := acc.total_cost + (match lineCost with | some c => c | none => 0)
      missing_costs :=
        acc.missing_costs ++ (match lineCost with | some _ => [] | none => [ingredient.name]) }

/-- `CostingService.calculate_recipe_cost`: full cost breakdown for a
recipe, `none` when the recipe does not exist. -/
def calculate_recipe_cost (db : CostDB) (recipeId : ℕ) : Option CostingResult :=
  match find_recipe db.recipes recipeId with
  | none => none
  | some recipe =>
    let recipeIngredients := get_recipe_ingredients db recipeId
    let acc := recipeIngredients.foldl (cost_line db) ⟨[], 0, []⟩
    let costPerPortion : Option ℚ :=
      if 0 < acc.total_cost ∧ 0 < recipe.yield_quantity then
        some (acc.total_cost / recipe.yield_quantity)
      else none
    some
      { recipe_id := recipe.id
        recipe_name := recipe.name
        yield_quantity := recipe.yield_quantity
        yield_unit := recipe.yield_unit
        breakdown := acc.breakdown
        sub_recipe_breakdown := []
        ingredient_cost := none
        sub_recipe_cost := none
        total_batch_cost := if acc.missing_costs = [] then some acc.total_cost else none
        cost_per_portion := costPerPortion
        missing_costs := acc.missing_costs }

/-- Evaluation lemmas for `string_lower` on the concrete unit strings
used below. -/
theorem string_lower_g : string_lower "g" = "g" := by decide

theorem string_lower_kg : string_lower "kg" = "kg" := by decide

theorem string_lower_KG_upper : string_lower "KG" = "kg" := by decide

theorem string_lower_ml : string_lower "ml" = "ml" := by decide

theorem string_lower_bunch : string_lower "bunch" = "bunch" := by decide

example : convert_to_base_unit 3 "KG" "g" = some 3000 := by
  simp [convert_to_base_unit, get_unit_category, string_lower_KG_upper, string_lower_g,
    string_lower_kg, MASS_CONVERSIONS, VOLUME_CONVERSIONS, COUNT_CONVERSIONS, List.lookup]
  norm_num
example : convert_to_base_unit 2 "kg" "ml" = none := by
  simp [convert_to_base_unit, get_unit_category, string_lower_kg, string_lower_ml,
    MASS_CONVERSIONS, VOLUME_CONVERSIONS, COUNT_CONVERSIONS, List.lookup]
example : convert_to_base_unit 5 "bunch" "g" = some 5 := by
  simp [convert_to_base_unit, get_unit_category, string_lower_bunch, string_lower_g,
    MASS_CONVERSIONS, VOLUME_CONVERSIONS, COUNT_CONVERSIONS, List.lookup]

/-! ## Sub-recipe service (`app/domain/subrecipe_service.py`) -/

/-- `SubRecipeService._get_child_recipe_ids`: direct child recipe ids of
a recipe in the BOM edge table. -/
def child_recipe_ids (edges : List BomEdge) (recipeId : ℕ) : List ℕ :=
  (edges.filter (fun e => e.parent_recipe_id = recipeId)).map (fun e => e.child_recipe_id)

/-- All child ids occurring in the edge table; only used to bound the
breadth-first search. -/
def bfs_universe (edges : List BomEdge) : Finset ℕ :=
  (edges.map (fun e => e.child_recipe_id)).toFinset

/-- The BFS loop of `SubRecipeService.can_add_subrecipe`: pop the
queue, skip visited nodes, answer `false` as soon as the parent shows up
among the popped node's children.  The Python loop terminates because
the visited set only grows inside the finite universe of child ids; the
recursion here is well-founded on exactly that measure. -/
def bfs_safe (edges : List BomEdge) (parentId : ℕ) : List ℕ → Finset ℕ → Bool
  | [], _ => true
  | current :: rest, visited =>
    if h : current ∈ visited then
      bfs_safe edges parentId rest visited
    else
      if parentId ∈ child_recipe_ids edges current then false
      else bfs_safe edges parentId (rest ++ child_recipe_ids edges current)
        (insert current visited)
termination_by queue visited =>
  (((queue.toFinset ∪ bfs_universe edges) \ visited).card, queue.length)
decreasing_by
  · refine Prod.lex_iff.mpr (Or.inr ⟨?_, ?_⟩)
    · have hset : (rest.toFinset ∪ bfs_universe edges) \ visited =
          ((current :: rest).toFinset ∪ bfs_universe edges) \ visited := by
        ext x
        simp only [Finset.mem_sdiff, Finset.mem_union, List.mem_toFinset, List.mem_cons]
        constructor
        · rintro ⟨hx, hv⟩
          exact ⟨hx.imp_left Or.inr, hv⟩
        · rintro ⟨hx, hv⟩
          refine ⟨?_, hv⟩
          rcases hx with (rfl | hx) | hx
          · exact absurd h hv
          · exact Or.inl hx
          · exact Or.inr hx
      rw [hset]
    · simp
  · refine Prod.lex_iff.mpr (Or.inl ?_)
    apply Finset.card_lt_card
    rw [Finset.ssubset_def]
    constructor
    · intro x hx
      simp only [Finset.mem_sdiff, Finset.mem_union, List.mem_toFinset, List.mem_append,
        Finset.mem_insert, not_or] at hx
      obtain ⟨hx1, hx2, hx3⟩ := hx
      simp only [Finset.mem_sdiff, Finset.mem_union, List.mem_toFinset, List.mem_cons]
      refine ⟨?_, hx3⟩
      rcases hx1 with hx1 | hx1
      · rcases hx1 with hx1 | hx1
        · exact Or.inl (Or.inr hx1)
        · right
          simp only [child_recipe_ids, List.mem_map, List.mem_filter] at hx1
          obtain ⟨e, he, rfl⟩ := hx1
          simp only [bfs_universe, List.mem_toFinset, List.mem_map]
          exact ⟨e, he.1, rfl⟩
      · exact Or.inr hx1
    · intro hsub
      have hcur : current ∈ ((current :: rest).toFinset ∪ bfs_universe edges) \ visited := by
        simp [h]
      have h2 := hsub hcur
      simp at h2

/-- `SubRecipeService.can_add_subrecipe`: `true` when adding
`child` under `parent` is safe (no self-reference, parent not reachable
from the child's sub-recipe tree). -/
def can_add_subrecipe (edges : List BomEdge) (parentId childId : ℕ) : Bool :=
  if parentId = childId then false
  else bfs_safe edges parentId [childId] ∅

/-- Request payload of `add_sub_recipe` (`RecipeRecipeCreate`). -/
structure RecipeRecipeCreate where
  child_recipe_id : ℕ
  quantity : ℚ
  unit : SubRecipeUnit
  deriving DecidableEq, Repr

/-- The errors `add_sub_recipe` raises (`ValueError` for missing
recipes and duplicates, `CycleDetectedError` for cycles); the source's
message strings are elided. -/
inductive AddSubRecipeError where
  | parentNotFound
  | childNotFound
  | cycleDetected
  | duplicateEdge
  deriving DecidableEq, Repr

/-- The database-assigned autoincrement primary key of a new edge row,
modelled as one past the largest existing id. -/
def next_edge_id (edges : List BomEdge) : ℕ :=
  (edges.map (fun e => e.id)).foldr max 0 + 1

/-- `SubRecipeService.add_sub_recipe`: validates both endpoints, the
cycle check, and duplicate detection, then inserts the edge with the
next position (`max existing position for the parent, or 0, plus 1`).
Returns the new table state together with the created row. -/
def add_sub_recipe (recipes : List Recipe) (edges : List BomEdge)
    (parentRecipeId : ℕ) (data : RecipeRecipeCreate) :
    Except AddSubRecipeError (List BomEdge × BomEdge) :=
  if (find_recipe recipes parentRecipeId).isNone then
    .error .parentNotFound
  else if (find_recipe recipes data.child_recipe_id).isNone then
    .error .childNotFound
  else if ¬ can_add_subrecipe edges parentRecipeId data.child_recipe_id then
    .error .cycleDetected
  else if edges.any (fun e =>
      e.parent_recipe_id = parentRecipeId ∧ e.child_recipe_id = data.child_recipe_id) then
    .error .duplicateEdge
  else
    let maxPosition :=
      ((edges.filter (fun e => e.parent_recipe_id = parentRecipeId)).map
        (fun e => e.position)).foldr max 0
    let newEdge : BomEdge :=
      { id := next_edge_id edges
        parent_recipe_id := parentRecipeId
        child_recipe_id := data.child_recipe_id
        quantity := data.quantity
        unit := data.unit
        position := maxPosition + 1 }
    .ok (edges ++ [newEdge], newEdge)

/-- A sequence of `add_sub_recipe` calls against a fixed recipe table:
a rejected call leaves the edge table unchanged (the service raises
before any mutation). -/
def apply_adds (recipes : List Recipe) (edges : List BomEdge)
    (ops : List (ℕ × RecipeRecipeCreate)) : List BomEdge :=
  ops.foldl
    (fun es op =>
      match add_sub_recipe recipes es op.1 op.2 with
      | .ok (es', _) => es'
      | .error _ => es)
    edges

/-- Ordering used by `get_sub_recipes` (`ORDER BY position`). -/
def position_le (a b : BomEdge) : Prop :=
  a.position ≤ b.position

instance : DecidableRel position_le := fun a b =>
  inferInstanceAs (Decidable (a.position ≤ b.position))

/-- `SubRecipeService.get_sub_recipes`: the parent's edges ordered by
position. -/
def get_sub_recipes (edges : List BomEdge) (recipeId : ℕ) : List BomEdge :=
  List.insertionSort position_le
    (edges.filter (fun e => e.parent_recipe_id = recipeId))

/-- The loop body of `reorder_sub_recipes`: `session.get` by primary
key, and the position is overwritten only when the row exists and
belongs to the parent. -/
def reorder_update (parentRecipeId linkId index : ℕ) (e : BomEdge) : BomEdge :=
  if e.id = linkId ∧ e.parent_recipe_id = parentRecipeId then
    { e with position := index }
  else e

/-- The `for index, link_id in enumerate(ordered_ids)` loop of
`reorder_sub_recipes`. -/
def apply_reorder (parentRecipeId : ℕ) : List BomEdge → ℕ → List ℕ → List BomEdge
  | es, _, [] => es
  | es, index, linkId :: rest =>
    apply_reorder parentRecipeId (es.map (reorder_update parentRecipeId linkId index))
      (index + 1) rest

/-- `SubRecipeService.reorder_sub_recipes`: positions are reassigned to
the 0-based index of each id in the supplied order; the new table state
is returned together with the freshly sorted listing. -/
def reorder_sub_recipes (edges : List BomEdge) (parentRecipeId : ℕ)
    (orderedIds : List ℕ) : List BomEdge × List BomEdge :=
  let edges' := apply_reorder parentRecipeId edges 0 orderedIds
  (edges', get_sub_recipes edges' parentRecipeId)

/-! ## Version lineage engine (`app/domain/recipe_service.py`) -/

/-- `RecipeService._is_recipe_authorized`: public, or owned by the
viewer. -/
def is_recipe_authorized (recipe : Recipe) (userId : Option String) : Bool :=
  if recipe.is_public then true
  else
    match userId with
    | some uid => decide (recipe.owner_id = some uid)
    | none => false

/-- `RecipeService._create_masked_recipe`: a placeholder with the same
id, version, status and timestamps, the recomputed `root_id`, and every
content field blanked.  Fields the source does not pass to the `Recipe`
constructor take the column defaults. -/
def create_masked_recipe (recipe : Recipe) (newRootId : Option ℕ) : Recipe :=
  { id := recipe.id
    name := ""
    yield_quantity := 0
    yield_unit := ""
    is_prep_recipe := false
    instructions_raw := none
    instructions_structured := none
    cost_price := none
    selling_price_est := none
    status := recipe.status
    is_public := false
    owner_id := none
    version := recipe.version
    root_id := newRootId
    description := none
    image_url := none
    summary_feedback := none
    created_by := none
    updated_by := none
    rnd_started := false
    review_ready := false
    created_at := recipe.created_at
    updated_at := recipe.updated_at }

/-- The copy of an authorized recipe that `get_version_tree` builds when
it rewrites `root_id`.  As in the source, fields not passed to the
constructor (`description`, `image_url`, `summary_feedback`,
`rnd_started`, `review_ready`) fall back to the column defaults. -/
def adjusted_recipe (r : Recipe) (newRootId : Option ℕ) : Recipe :=
  { id := r.id
    name := r.name
    yield_quantity := r.yield_quantity
    yield_unit := r.yield_unit
    is_prep_recipe := r.is_prep_recipe
    instructions_raw := r.instructions_raw
    instructions_structured := r.instructions_structured
    cost_price := r.cost_price
    selling_price_est := r.selling_price_est
    status := r.status
    is_public := r.is_public
    owner_id := r.owner_id
    version := r.version
    root_id := newRootId
    description := none
    image_url := none
    summary_feedback := none
    created_by := r.created_by
    updated_by := r.updated_by
    rnd_started := false
    review_ready := false
    created_at := r.created_at
    updated_at := r.updated_at }

/-- The upward `while current.root_id is not None` walk of
`get_version_tree`, accumulating ancestor ids into `tree_ids`.  The
source has no visited set here, so the loop need not terminate on
corrupted cyclic data; `fuel` counts loop iterations and `none` models a
run that never finishes. -/
def walk_up (store : List Recipe) : ℕ → Recipe → List ℕ → Option (Recipe × List ℕ)
  | fuel, current, treeIds =>
    match current.root_id with
    | none => some (current, treeIds)
    | some rootId =>
      match fuel with
      | 0 => none
      | fuel' + 1 =>
        match find_recipe store rootId with
        | none => some (current, treeIds.insert rootId)
        | some parent => walk_up store fuel' parent (treeIds.insert rootId)

/-- Recipes whose `root_id` equals the given id (the frontier query of
the downward BFS). -/
def lineage_children (store : List Recipe) (currentId : ℕ) : List Recipe :=
  store.filter (fun r => r.root_id = some currentId)

/-- Inner `for child in children` body of `collect_all_descendants`:
unvisited children are appended to the queue and recorded in both the
visited set and `tree_ids`.  The accumulator is (queue, visited,
tree_ids). -/
def collect_step (acc : List ℕ × List ℕ × List ℕ) (child : Recipe) :
    List ℕ × List ℕ × List ℕ :=
  if child.id ∈ acc.2.1 then acc
  else (acc.1 ++ [child.id], acc.2.1.insert child.id, acc.2.2.insert child.id)

/-- The downward BFS `collect_all_descendants` of `get_version_tree`.
Every enqueued id is fresh, so the Python loop always terminates; fuel
counts pops and is instantiated generously by the caller. -/
def collect_all_descendants (store : List Recipe) :
    ℕ → List ℕ → List ℕ → List ℕ → Option (List ℕ)
  | _, [], _, treeIds => some treeIds
  | 0, _ :: _, _, _ => none
  | fuel + 1, currentId :: rest, visited, treeIds =>
    let next := (lineage_children store currentId).foldl collect_step (rest, visited, treeIds)
    collect_all_descendants store fuel next.1 next.2.1 next.2.2

/-- Ordering used by `get_version_tree` (`ORDER BY version, created_at`). -/
def version_le (a b : Recipe) : Prop :=
  a.version < b.version ∨ (a.version = b.version ∧ a.created_at ≤ b.created_at)

instance : DecidableRel version_le := fun a b =>
  inferInstanceAs
    (Decidable (a.version < b.version ∨ (a.version = b.version ∧ a.created_at ≤ b.created_at)))

/-- The `find_last_authorized_ancestor` closure of `get_version_tree`:
walk `root_id` pointers through the fetched map, returning the first
authorized ancestor, or `none` (the inner option) when the chain ends.
This loop, too, has no visited set in the source, hence the fuel. -/
def find_last_authorized_ancestor (allRecipes : List Recipe) (authorizedIds : List ℕ) :
    ℕ → Recipe → Option (Option ℕ)
  | fuel, r =>
    match r.root_id with
    | none => some none
    | some rootId =>
      match fuel with
      | 0 => none
      | fuel' + 1 =>
        match find_recipe allRecipes rootId with
        | none => some none
        | some parent =>
          if parent.id ∈ authorizedIds then some (some parent.id)
          else find_last_authorized_ancestor allRecipes authorizedIds fuel' parent

/-- One iteration of the result-building loop of `get_version_tree`:
authorized recipes pass through (root_id rewritten when the parent is
unauthorized), unauthorized recipes are masked. -/
def version_tree_entry (allRecipes : List Recipe) (authorizedIds : List ℕ) (fuel : ℕ)
    (r : Recipe) : Option Recipe :=
  if r.id ∈ authorizedIds then
    match r.root_id with
    | some rootId =>
      if rootId ∈ authorizedIds then some r
      else (find_last_authorized_ancestor allRecipes authorizedIds fuel r).map (adjusted_recipe r)
    | none => some r
  else (find_last_authorized_ancestor allRecipes authorizedIds fuel r).map (create_masked_recipe r)

/-- The result-building `for r in all_recipes` loop of
`get_version_tree`. -/
def build_version_entries (allRecipes : List Recipe) (authorizedIds : List ℕ) (fuel : ℕ) :
    List Recipe → Option (List Recipe)
  | [] => some []
  | r :: rs =>
    match version_tree_entry allRecipes authorizedIds fuel r with
    | none => none
    | some entry => (build_version_entries allRecipes authorizedIds fuel rs).map (entry :: ·)

/-- `RecipeService.get_version_tree`: collect the whole version tree of
`recipeId` (upward walk to the root, breadth-first expansion downward),
sort by `(version, created_at)`, and, when a viewer is given, apply the
authorization masking.  A nonexistent recipe yields an empty list.  The
fuel instantiations are generous upper bounds on the iterations of the
source's loops on terminating runs; `none` models a run that never
finishes (possible only on corrupted cyclic `root_id` data). -/
def get_version_tree (store : List Recipe) (recipeId : ℕ) (userId : Option String) :
    Option (List Recipe) :=
  match find_recipe store recipeId with
  | none => some []
  | some recipe =>
    match walk_up store (store.length + 1) recipe [recipeId] with
    | none => none
    | some (rootRecipe, upIds) =>
      match collect_all_descendants store (store.length + 2) [rootRecipe.id] [rootRecipe.id] upIds with
      | none => none
      | some treeIds =>
        let allRecipes :=
          List.insertionSort version_le (store.filter (fun r => r.id ∈ treeIds))
        match userId with
        | none => some allRecipes
        | some _ =>
          let authorizedIds :=
            (allRecipes.filter (fun r => is_recipe_authorized r userId)).map (fun r => r.id)
          build_version_entries allRecipes authorizedIds (allRecipes.length + 1) allRecipes

/-! ## General lemmas about lowercasing -/

/-- `Char.toLower` is idempotent. -/
theorem char_toLower_idem (c : Char) : c.toLower.toLower = c.toLower := by
  unfold Char.toLower
  by_cases h : c.toNat ≥ 65 ∧ c.toNat ≤ 90
  · have hv : (c.toNat + 32).isValidChar := by
      left
      omega
    have ht : (Char.ofNat (c.toNat + 32)).toNat = c.toNat + 32 := by
      rw [Char.ofNat, dif_pos hv]
      rfl
    rw [if_pos h, if_neg]
    rw [ht]
    omega
  · rw [if_neg h, if_neg h]

/-- Lowercasing a string twice is the same as lowercasing it once. -/
theorem string_lower_idem (s : String) : string_lower (string_lower s) = string_lower s := by
  simp [string_lower, List.map_map, Function.comp_def, char_toLower_idem]

/-- The unit category of a lowered unit string equals that of the
original (the category function lowercases internally). -/
theorem get_unit_category_lower (u : String) :
    get_unit_category (string_lower u) = get_unit_category u := by
  unfold get_unit_category
  rw [string_lower_idem]

/-! ## Concrete stores for the BOM costing scenarios -/

/-- Ingredient worth 10.00 per gram, giving recipe A its 10.00 batch cost. -/
def ingredientTen : Ingredient :=
  { id := 1, name := "base", base_unit := "g", cost_per_base_unit := some 10, is_active := true }

/-- Ingredient worth 2.00 per gram, recipe B's only direct line. -/
def ingredientFlour : Ingredient :=
  { id := 2, name := "flour", base_unit := "g", cost_per_base_unit := some 2, is_active := true }

/-- Recipe A of the spec's costing scenario: public, batch cost 10.00. -/
def costRecipeA : Recipe :=
  { id := 1, name := "A", yield_quantity := 1, yield_unit := "portion",
    is_prep_recipe := false, instructions_raw := none, instructions_structured := none,
    cost_price := none, selling_price_est := none, status := .active, is_public := true,
    owner_id := some "alice", version := 1, root_id := none, description := none,
    image_url := none, summary_feedback := none, created_by := none, updated_by := none,
    rnd_started := false, review_ready := false, created_at := 10, updated_at := 10 }

/-- Recipe B of the spec's costing scenario. -/
def costRecipeB : Recipe :=
  { id := 2, name := "B", yield_quantity := 1, yield_unit := "portion",
    is_prep_recipe := false, instructions_raw := none, instructions_structured := none,
    cost_price := none, selling_price_est := none, status := .active, is_public := true,
    owner_id := some "alice", version := 1, root_id := none, description := none,
    image_url := none, summary_feedback := none, created_by := none, updated_by := none,
    rnd_started := false, review_ready := false, created_at := 11, updated_at := 11 }

/-- A's single direct line: quantity 1 "g" of the 10.00/g ingredient. -/
def lineA : RecipeIngredient :=
  { id := 1, recipe_id := 1, ingredient_id := 1, quantity := 1, unit := "g", sort_order := 1 }

/-- B's single direct line: quantity 1 "g" of the 2.00/g ingredient. -/
def lineB : RecipeIngredient :=
  { id := 2, recipe_id := 2, ingredient_id := 2, quantity := 1, unit := "g", sort_order := 1 }

/-- The BOM edge making A a 0.5-batch sub-recipe of B. -/
def edgeBA : BomEdge :=
  { id := 1, parent_recipe_id := 2, child_recipe_id := 1, quantity := 0.5,
    unit := .batch, position := 1 }

/-- The database of the spec's concrete costing scenario. -/
def costScenarioDB : CostDB :=
  { recipes := [costRecipeA, costRecipeB], recipeIngredients := [lineA, lineB],
    ingredients := [ingredientTen, ingredientFlour], recipeRecipes := [edgeBA] }

/-- C1: the spec claims the batch cost of a recipe also includes every
BOM child's batch cost scaled by the edge quantity, and that in the
concrete scenario B's batch cost is 7.00.  The code computes only the
direct ingredient lines: with A's batch cost at 10.00 and the 0.5-batch
edge from B to A present in the store, B's batch cost comes out as 2.00,
and the result does not depend on the BOM edge table at all. -/
theorem C1_cost_rollup_not_recursive :
    (calculate_recipe_cost costScenarioDB 1).map CostingResult.total_batch_cost =
      some (some 10) ∧
    (calculate_recipe_cost costScenarioDB 2).map CostingResult.total_batch_cost =
      some (some 2) ∧
    ∀ edges, calculate_recipe_cost { costScenarioDB with recipeRecipes := edges } 2 =
      calculate_recipe_cost costScenarioDB 2 := by
  refine ⟨?_, ?_, fun edges => rfl⟩
  · simp [calculate_recipe_cost, find_recipe, get_recipe_ingredients, cost_line,
      find_ingredient, convert_to_base_unit, get_unit_category, string_lower_g,
      costScenarioDB, ingredientTen, ingredientFlour, costRecipeA, costRecipeB, lineA, lineB,
      List.insertionSort, List.orderedInsert]
  · simp [calculate_recipe_cost, find_recipe, get_recipe_ingredients, cost_line,
      find_ingredient, convert_to_base_unit, get_unit_category, string_lower_g,
      costScenarioDB, ingredientTen, ingredientFlour, costRecipeA, costRecipeB, lineA, lineB,
      List.insertionSort, List.orderedInsert]

/-- Ingredient with unknown cost, for the missing-cost scenario. -/
def ingredientSaffron : Ingredient :=
  { id := 1, name := "saffron", base_unit := "g", cost_per_base_unit := none, is_active := true }

/-- Sub-recipe S whose only line has an unknown cost. -/
def missingRecipeS : Recipe :=
  { id := 1, name := "S", yield_quantity := 1, yield_unit := "portion",
    is_prep_recipe := false, instructions_raw := none, instructions_structured := none,
    cost_price := none, selling_price_est := none, status := .active, is_public := true,
    owner_id := some "alice", version := 1, root_id := none, description := none,
    image_url := none, summary_feedback := none, created_by := none, updated_by := none,
    rnd_started := false, review_ready := false, created_at := 10, updated_at := 10 }

/-- Parent recipe P embedding S as a sub-recipe, with no direct lines. -/
def missingRecipeP : Recipe :=
  { id := 2, name := "P", yield_quantity := 1, yield_unit := "portion",
    is_prep_recipe := false, instructions_raw := none, instructions_structured := none,
    cost_price := none, selling_price_est := none, status := .active, is_public := true,
    owner_id := some "alice", version := 1, root_id := none, description := none,
    image_url := none, summary_feedback := none, created_by := none, updated_by := none,
    rnd_started := false, review_ready := false, created_at := 11, updated_at := 11 }

/-- S's single line: one gram of saffron (cost unknown). -/
def lineS : RecipeIngredient :=
  { id := 1, recipe_id := 1, ingredient_id := 1, quantity := 1, unit := "g", sort_order := 1 }

/-- The BOM edge making S a sub-recipe of P. -/
def edgePS : BomEdge :=
  { id := 1, parent_recipe_id := 2, child_recipe_id := 1, quantity := 1,
    unit := .batch, position := 1 }

/-- Database for the missing-cost propagation scenario: P's transitive
BOM contains an ingredient with unknown cost, but only through S. -/
def missingCostDB : CostDB :=
  { recipes := [missingRecipeS, missingRecipeP], recipeIngredients := [lineS],
    ingredients := [ingredientSaffron], recipeRecipes := [edgePS] }

/-- C2: the spec claims a null `cost_per_base_unit` anywhere in the
transitive BOM forces a null top-level batch cost with the ingredient
named in `missing`.  The code inspects only the direct lines: S itself
reports batch cost null with "saffron" missing, yet its parent P — whose
transitive BOM contains the very same saffron line — reports batch cost
0.00 with an empty missing list. -/
theorem C2_missing_cost_not_transitive :
    (calculate_recipe_cost missingCostDB 1).map
      (fun res => (res.total_batch_cost, res.missing_costs)) = some (none, ["saffron"]) ∧
    (calculate_recipe_cost missingCostDB 2).map
      (fun res => (res.total_batch_cost, res.missing_costs)) = some (some 0, []) := by
  constructor
  · simp [calculate_recipe_cost, find_recipe, get_recipe_ingredients, cost_line,
      find_ingredient, convert_to_base_unit, get_unit_category, string_lower_g,
      missingCostDB, ingredientSaffron, missingRecipeS, missingRecipeP, lineS,
      List.insertionSort, List.orderedInsert]
  · simp [calculate_recipe_cost, find_recipe, get_recipe_ingredients, cost_line,
      find_ingredient, convert_to_base_unit, get_unit_category, string_lower_g,
      missingCostDB, ingredientSaffron, missingRecipeS, missingRecipeP, lineS,
      List.insertionSort, List.orderedInsert]

/-! ## Concrete stores for the lineage scenarios -/

/-- Recipe A of the fork-chain scenario: version 1, public tree root. -/
def vtRecipeA : Recipe :=
  { id := 1, name := "A", yield_quantity := 1, yield_unit := "portion",
    is_prep_recipe := false, instructions_raw := none, instructions_structured := none,
    cost_price := none, selling_price_est := none, status := .active, is_public := true,
    owner_id := some "alice", version := 1, root_id := none, description := none,
    image_url := none, summary_feedback := none, created_by := none, updated_by := none,
    rnd_started := false, review_ready := false, created_at := 10, updated_at := 10 }

/-- Recipe B: version 2, forked from A, private, owned by someone other
than the viewer. -/
def vtRecipeB : Recipe :=
  { id := 2, name := "B", yield_quantity := 1, yield_unit := "portion",
    is_prep_recipe := false, instructions_raw := none, instructions_structured := none,
    cost_price := none, selling_price_est := none, status := .draft, is_public := false,
    owner_id := some "bob", version := 2, root_id := some 1, description := none,
    image_url := none, summary_feedback := none, created_by := none, updated_by := none,
    rnd_started := false, review_ready := false, created_at := 20, updated_at := 20 }

/-- Recipe C: version 3, forked from B, owned by the viewer. -/
def vtRecipeC : Recipe :=
  { id := 3, name := "C", yield_quantity := 1, yield_unit := "portion",
    is_prep_recipe := false, instructions_raw := none, instructions_structured := none,
    cost_price := none, selling_price_est := none, status := .draft, is_public := false,
    owner_id := some "viewer", version := 3, root_id := some 2, description := none,
    image_url := none, summary_feedback := none, created_by := none, updated_by := none,
    rnd_started := false, review_ready := false, created_at := 30, updated_at := 30 }

/-- The fork chain A(v1) -> B(v2) -> C(v3). -/
def vtStore : List Recipe := [vtRecipeA, vtRecipeB, vtRecipeC]

/-- C3 counterexample: the claim predicts the returned `root_id`s
`[none, some A, some B]` — masked B re-linked to A and C still pointing
at masked B.  The code's run from C as the viewer returns
`[none, some A, some A]` instead: C, whose parent B is unauthorized, is
re-linked past the masked B to the nearest *authorized* ancestor A. -/
theorem C3_counterexample :
    ¬ ((get_version_tree vtStore 3 (some "viewer")).map (fun l => l.map Recipe.root_id) =
      some [none, some 1, some 2]) := by decide

/-- C3 amended: the tree from C for the viewer is
`[A (full), B (masked, root_id = A.id), C (root_id rewritten to A.id)]`;
an authorized recipe whose parent is masked is re-linked to its nearest
authorized ancestor, not to the masked placeholder (which keeps its
place in the list), and the rewritten copy of C also resets the fields
the source constructor never passes (description, image, feedback,
workflow flags). -/
theorem C3_masked_lineage_amended :
    get_version_tree vtStore 3 (some "viewer") =
      some [vtRecipeA, create_masked_recipe vtRecipeB (some 1),
        adjusted_recipe vtRecipeC (some 1)] := by decide

/-- First half of a corrupted two-cycle: recipe 1 forked from recipe 2. -/
def cycRecipe1 : Recipe :=
  { id := 1, name := "R1", yield_quantity := 1, yield_unit := "portion",
    is_prep_recipe := false, instructions_raw := none, instructions_structured := none,
    cost_price := none, selling_price_est := none, status := .draft, is_public := true,
    owner_id := none, version := 1, root_id := some 2, description := none,
    image_url := none, summary_feedback := none, created_by := none, updated_by := none,
    rnd_started := false, review_ready := false, created_at := 1, updated_at := 1 }

/-- Second half of the two-cycle: recipe 2 forked from recipe 1. -/
def cycRecipe2 : Recipe :=
  { id := 2, name := "R2", yield_quantity := 1, yield_unit := "portion",
    is_prep_recipe := false, instructions_raw := none, instructions_structured := none,
    cost_price := none, selling_price_est := none, status := .draft, is_public := true,
    owner_id := none, version := 2, root_id := some 1, description := none,
    image_url := none, summary_feedback := none, created_by := none, updated_by := none,
    rnd_started := false, review_ready := false, created_at := 2, updated_at := 2 }

/-- A corrupted store whose `root_id` pointers form a 2-cycle. -/
def cycStore : List Recipe := [cycRecipe1, cycRecipe2]

/-- C9: the spec requires the upward `root_id` walk of
`get_version_tree` to be bounded by a visited set so that it terminates
even on corrupted cyclic data.  The source's upward `while` loop has no
visited set: on the 2-cycle store the walk never finishes — it returns
no result for any number of loop iterations (`fuel`), so
`get_version_tree` on that store yields no result either. -/
theorem C9_upward_walk_diverges_on_cycle :
    (∀ fuel treeIds, walk_up cycStore fuel cycRecipe1 treeIds = none ∧
      walk_up cycStore fuel cycRecipe2 treeIds = none) ∧
    get_version_tree cycStore 1 none = none := by
  constructor
  · intro fuel
    induction fuel with
    | zero => intro treeIds; exact ⟨rfl, rfl⟩
    | succ n ih =>
      intro treeIds
      constructor
      · show walk_up cycStore n cycRecipe2 (treeIds.insert 2) = none
        exact (ih (treeIds.insert 2)).2
      · show walk_up cycStore n cycRecipe1 (treeIds.insert 1) = none
        exact (ih (treeIds.insert 1)).1
  · decide

/-! ## Lineage connectivity under masking (C4) -/

/-- Unfolding equation of the ancestor walk at a root node. -/
theorem find_last_eq_root (allRecipes : List Recipe) (authorizedIds : List ℕ) (fuel : ℕ)
    (r : Recipe) (h : r.root_id = none) :
    find_last_authorized_ancestor allRecipes authorizedIds fuel r = some none := by
  unfold find_last_authorized_ancestor
  rw [h]

/-- Unfolding equation of the ancestor walk with exhausted fuel. -/
theorem find_last_eq_zero (allRecipes : List Recipe) (authorizedIds : List ℕ)
    (r : Recipe) (rid : ℕ) (h : r.root_id = some rid) :
    find_last_authorized_ancestor allRecipes authorizedIds 0 r = none := by
  unfold find_last_authorized_ancestor
  rw [h]

/-- Unfolding equation of the ancestor walk at a non-root node. -/
theorem find_last_eq_succ (allRecipes : List Recipe) (authorizedIds : List ℕ) (fuel : ℕ)
    (r : Recipe) (rid : ℕ) (h : r.root_id = some rid) :
    find_last_authorized_ancestor allRecipes authorizedIds (fuel + 1) r =
      match find_recipe allRecipes rid with
      | none => some none
      | some parent =>
        if parent.id ∈ authorizedIds then some (some parent.id)
        else find_last_authorized_ancestor allRecipes authorizedIds fuel parent := by
  conv_lhs => unfold find_last_authorized_ancestor
  rw [h]

/-- Whatever ancestor id `find_last_authorized_ancestor` reports is a
member of the authorized set. -/
theorem find_last_authorized_mem (allRecipes : List Recipe) (authorizedIds : List ℕ) :
    ∀ fuel (r : Recipe) (result : Option ℕ),
      find_last_authorized_ancestor allRecipes authorizedIds fuel r = some result →
      ∀ x, result = some x → x ∈ authorizedIds := by
  intro fuel
  induction fuel with
  | zero =>
    intro r result h x hx
    cases hroot : r.root_id with
    | none =>
      rw [find_last_eq_root _ _ _ _ hroot] at h
      simp only [Option.some.injEq] at h
      subst h
      simp at hx
    | some rid =>
      rw [find_last_eq_zero _ _ _ _ hroot] at h
      simp at h
  | succ n ih =>
    intro r result h x hx
    cases hroot : r.root_id with
    | none =>
      rw [find_last_eq_root _ _ _ _ hroot] at h
      simp only [Option.some.injEq] at h
      subst h
      simp at hx
    | some rid =>
      rw [find_last_eq_succ _ _ _ _ _ hroot] at h
      cases hfind : find_recipe allRecipes rid with
      | none =>
        rw [hfind] at h
        simp only [Option.some.injEq] at h
        subst h
        simp at hx
      | some parent =>
        rw [hfind] at h
        dsimp only at h
        by_cases hmem : parent.id ∈ authorizedIds
        · rw [if_pos hmem] at h
          simp only [Option.some.injEq] at h
          subst h
          simp only [Option.some.injEq] at hx
          subst hx
          exact hmem
        · rw [if_neg hmem] at h
          exact ih parent result h x hx

/-- Every entry emitted by `version_tree_entry` keeps the source row's
id, and its exposed `root_id`, when present, is an authorized id. -/
theorem version_tree_entry_root_authorized (allRecipes : List Recipe) (authorizedIds : List ℕ)
    (fuel : ℕ) (r entry : Recipe)
    (h : version_tree_entry allRecipes authorizedIds fuel r = some entry) :
    entry.id = r.id ∧ ∀ x, entry.root_id = some x → x ∈ authorizedIds := by
  unfold version_tree_entry at h
  by_cases hauth : r.id ∈ authorizedIds
  · rw [if_pos hauth] at h
    cases hroot : r.root_id with
    | none =>
      rw [hroot] at h
      dsimp only at h
      simp only [Option.some.injEq] at h
      subst h
      refine ⟨rfl, ?_⟩
      intro x hx
      rw [hroot] at hx
      simp at hx
    | some rid =>
      rw [hroot] at h
      dsimp only at h
      by_cases hrid : rid ∈ authorizedIds
      · rw [if_pos hrid] at h
        simp only [Option.some.injEq] at h
        subst h
        refine ⟨rfl, ?_⟩
        intro x hx
        rw [hroot] at hx
        simp only [Option.some.injEq] at hx
        subst hx
        exact hrid
      · rw [if_neg hrid] at h
        rw [Option.map_eq_some'] at h
        obtain ⟨nr, hfl, hentry⟩ := h
        subst hentry
        refine ⟨rfl, ?_⟩
        intro x hx
        simp only [adjusted_recipe] at hx
        exact find_last_authorized_mem allRecipes authorizedIds fuel r nr hfl x hx
  · rw [if_neg hauth] at h
    rw [Option.map_eq_some'] at h
    obtain ⟨nr, hfl, hentry⟩ := h
    subst hentry
    refine ⟨rfl, ?_⟩
    intro x hx
    simp only [create_masked_recipe] at hx
    exact find_last_authorized_mem allRecipes authorizedIds fuel r nr hfl x hx

/-- A successful `build_version_entries` run relates input rows and
output entries pointwise. -/
theorem build_version_entries_forall2 (allRecipes : List Recipe) (authorizedIds : List ℕ)
    (fuel : ℕ) : ∀ todo l, build_version_entries allRecipes authorizedIds fuel todo = some l →
    List.Forall₂ (fun r entry => version_tree_entry allRecipes authorizedIds fuel r = some entry)
      todo l := by
  intro todo
  induction todo with
  | nil =>
    intro l h
    unfold build_version_entries at h
    simp only [Option.some.injEq] at h
    subst h
    exact .nil
  | cons r rs ih =>
    intro l h
    unfold build_version_entries at h
    cases hentry : version_tree_entry allRecipes authorizedIds fuel r with
    | none =>
      rw [hentry] at h
      simp at h
    | some e =>
      rw [hentry] at h
      rw [Option.map_eq_some'] at h
      obtain ⟨l', hl', hcons⟩ := h
      subst hcons
      exact .cons hentry (ih l' hl')

/-- Right-to-left membership along a `Forall₂` relation. -/
theorem forall2_mem_right {α β : Type} {R : α → β → Prop} :
    ∀ {l₁ : List α} {l₂ : List β}, List.Forall₂ R l₁ l₂ → ∀ b ∈ l₂, ∃ a ∈ l₁, R a b := by
  intro l₁ l₂ h
  induction h with
  | nil =>
    intro b hb
    simp at hb
  | @cons a b l₁ l₂ hR _ ih =>
    intro c hc
    rcases List.mem_cons.mp hc with rfl | hc
    · exact ⟨a, List.mem_cons_self a l₁, hR⟩
    · obtain ⟨a', ha', hab⟩ := ih c hc
      exact ⟨a', List.mem_cons_of_mem _ ha', hab⟩

/-- Left-to-right membership along a `Forall₂` relation. -/
theorem forall2_mem_left {α β : Type} {R : α → β → Prop} :
    ∀ {l₁ : List α} {l₂ : List β}, List.Forall₂ R l₁ l₂ → ∀ a ∈ l₁, ∃ b ∈ l₂, R a b := by
  intro l₁ l₂ h
  induction h with
  | nil =>
    intro a ha
    simp at ha
  | @cons a b l₁ l₂ hR _ ih =>
    intro c hc
    rcases List.mem_cons.mp hc with rfl | hc
    · exact ⟨b, List.mem_cons_self b l₂, hR⟩
    · obtain ⟨b', hb', hab⟩ := ih c hc
      exact ⟨b', List.mem_cons_of_mem _ hb', hab⟩

/-- C4: lineage connectivity under masking — for any store, viewer and
recipe, every entry of a completed `get_version_tree` run has a
`root_id` that is either null or the id of another entry in the same
returned list. -/
theorem C4_lineage_connectivity (store : List Recipe) (recipeId : ℕ) (uid : String)
    (l : List Recipe) (h : get_version_tree store recipeId (some uid) = some l) :
    ∀ r ∈ l, ∀ x, r.root_id = some x → ∃ p ∈ l, p.id = x := by
  unfold get_version_tree at h
  cases hfind : find_recipe store recipeId with
  | none =>
    rw [hfind] at h
    simp only [Option.some.injEq] at h
    subst h
    intro r hr
    simp at hr
  | some recipe =>
    rw [hfind] at h
    dsimp only at h
    cases hwalk : walk_up store (store.length + 1) recipe [recipeId] with
    | none =>
      rw [hwalk] at h
      simp at h
    | some pr =>
      obtain ⟨rootRecipe, upIds⟩ := pr
      rw [hwalk] at h
      dsimp only at h
      cases hcol : collect_all_descendants store (store.length + 2)
          [rootRecipe.id] [rootRecipe.id] upIds with
      | none =>
        rw [hcol] at h
        simp at h
      | some treeIds =>
        rw [hcol] at h
        dsimp only at h
        have h2 := build_version_entries_forall2 _ _ _ _ _ h
        intro r hr x hx
        obtain ⟨a, _, hea⟩ := forall2_mem_right h2 r hr
        have hprops := version_tree_entry_root_authorized _ _ _ _ _ hea
        have hxmem := hprops.2 x hx
        simp only [List.mem_map] at hxmem
        obtain ⟨a', ha'filter, ha'id⟩ := hxmem
        have ha'mem := List.mem_of_mem_filter ha'filter
        obtain ⟨p, hp, hep⟩ := forall2_mem_left h2 a' ha'mem
        have hprops' := version_tree_entry_root_authorized _ _ _ _ _ hep
        exact ⟨p, hp, by rw [hprops'.1, ha'id]⟩

/-- C4 witness: in the concrete fork-chain store, the masked B entry's
rewritten `root_id` (A's id) resolves to an entry of the returned list. -/
theorem C4_witness :
    ∃ p ∈ [vtRecipeA, create_masked_recipe vtRecipeB (some 1),
      adjusted_recipe vtRecipeC (some 1)], p.id = 1 :=
  C4_lineage_connectivity vtStore 3 "viewer"
    [vtRecipeA, create_masked_recipe vtRecipeB (some 1), adjusted_recipe vtRecipeC (some 1)]
    (by decide) (create_masked_recipe vtRecipeB (some 1)) (by decide) 1 (by decide)

/-! ## Cost per portion (C6) -/

/-- One costing step preserves the invariant that the running total is
the sum of the known line costs in the breakdown built so far. -/
theorem cost_line_total_invariant (db : CostDB) (acc : CostAcc) (ri : RecipeIngredient)
    (h : acc.total_cost = (acc.breakdown.filterMap CostBreakdownItem.line_cost).sum) :
    (cost_line db acc ri).total_cost =
      ((cost_line db acc ri).breakdown.filterMap CostBreakdownItem.line_cost).sum := by
  unfold cost_line
  cases hfind : find_ingredient db.ingredients ri.ingredient_id with
  | none => exact h
  | some ing =>
    dsimp only
    cases hc : ing.cost_per_base_unit <;>
      cases hq : convert_to_base_unit ri.quantity ri.unit ing.base_unit <;>
        simp [hc, hq, List.filterMap_append, h]

/-- The costing loop's running total equals the sum of the known line
costs of the breakdown it produces. -/
theorem cost_foldl_total (db : CostDB) :
    ∀ (lines : List RecipeIngredient) (acc : CostAcc),
      acc.total_cost = (acc.breakdown.filterMap CostBreakdownItem.line_cost).sum →
      (lines.foldl (cost_line db) acc).total_cost =
        ((lines.foldl (cost_line db) acc).breakdown.filterMap CostBreakdownItem.line_cost).sum := by
  intro lines
  induction lines with
  | nil => intro acc h; exact h
  | cons ri rest ih => intro acc h; exact ih _ (cost_line_total_invariant db acc ri h)

/-- Recipe for the cost-per-portion counterexample: yield 2, one line
with a known cost and one line with an unknown cost. -/
def perPortionRecipe : Recipe :=
  { id := 1, name := "PP", yield_quantity := 2, yield_unit := "portion",
    is_prep_recipe := false, instructions_raw := none, instructions_structured := none,
    cost_price := none, selling_price_est := none, status := .active, is_public := true,
    owner_id := some "alice", version := 1, root_id := none, description := none,
    image_url := none, summary_feedback := none, created_by := none, updated_by := none,
    rnd_started := false, review_ready := false, created_at := 10, updated_at := 10 }

/-- Ingredient costing 5.00 per gram. -/
def ingredientOil : Ingredient :=
  { id := 1, name := "oil", base_unit := "g", cost_per_base_unit := some 5, is_active := true }

/-- Ingredient with unknown cost. -/
def ingredientTruffle : Ingredient :=
  { id := 2, name := "truffle", base_unit := "g", cost_per_base_unit := none, is_active := true }

/-- Known-cost line of the per-portion counterexample. -/
def linePP1 : RecipeIngredient :=
  { id := 1, recipe_id := 1, ingredient_id := 1, quantity := 1, unit := "g", sort_order := 1 }

/-- Unknown-cost line of the per-portion counterexample. -/
def linePP2 : RecipeIngredient :=
  { id := 2, recipe_id := 1, ingredient_id := 2, quantity := 1, unit := "g", sort_order := 2 }

/-- Database for the cost-per-portion counterexample. -/
def perPortionDB : CostDB :=
  { recipes := [perPortionRecipe], recipeIngredients := [linePP1, linePP2],
    ingredients := [ingredientOil, ingredientTruffle], recipeRecipes := [] }

/-- C6 counterexample: the claim says a null batch cost implies an
unknown cost per portion.  On a recipe with one known 5.00 line, one
missing-cost line and yield 2, the code reports batch cost null but
cost per portion 2.50 (computed from the partial total). -/
theorem C6_counterexample :
    ¬ ((calculate_recipe_cost perPortionDB 1).map CostingResult.total_batch_cost = some none →
      (calculate_recipe_cost perPortionDB 1).map CostingResult.cost_per_portion = some none) := by
  intro himp
  have h1 : (calculate_recipe_cost perPortionDB 1).map CostingResult.total_batch_cost =
      some none := by
    simp [calculate_recipe_cost, find_recipe, get_recipe_ingredients, cost_line,
      find_ingredient, convert_to_base_unit, get_unit_category, string_lower_g,
      perPortionDB, perPortionRecipe, ingredientOil, ingredientTruffle, linePP1, linePP2,
      sort_order_le, List.insertionSort, List.orderedInsert]
  have h2 : (calculate_recipe_cost perPortionDB 1).map CostingResult.cost_per_portion =
      some (some (5 / 2)) := by
    simp [calculate_recipe_cost, find_recipe, get_recipe_ingredients, cost_line,
      find_ingredient, convert_to_base_unit, get_unit_category, string_lower_g,
      perPortionDB, perPortionRecipe, ingredientOil, ingredientTruffle, linePP1, linePP2,
      sort_order_le, List.insertionSort, List.orderedInsert]
  have h3 := himp h1
  rw [h2] at h3
  simp at h3

/-- C6 amended: the cost per portion is the sum of the known direct
line costs divided by the yield quantity exactly when that sum and the
yield are both positive, and null otherwise — it is computed from the
partial total even when the batch cost is reported as null, and it is
null when the known total is zero. -/
theorem C6_cost_per_portion_amended (db : CostDB) (recipeId : ℕ) (res : CostingResult)
    (h : calculate_recipe_cost db recipeId = some res) :
    res.cost_per_portion =
      if 0 < (res.breakdown.filterMap CostBreakdownItem.line_cost).sum ∧
          0 < res.yield_quantity
      then some ((res.breakdown.filterMap CostBreakdownItem.line_cost).sum /
        res.yield_quantity)
      else none := by
  unfold calculate_recipe_cost at h
  cases hfind : find_recipe db.recipes recipeId with
  | none =>
    rw [hfind] at h
    simp at h
  | some recipe =>
    rw [hfind] at h
    dsimp only at h
    simp only [Option.some.injEq] at h
    subst h
    dsimp only
    rw [← cost_foldl_total db (get_recipe_ingredients db recipeId) ⟨[], 0, []⟩ (by simp)]

/-- Recipe used for the C6 witness: no ingredient lines, yield 2. -/
def portionWitnessRecipe : Recipe :=
  { id := 1, name := "W", yield_quantity := 2, yield_unit := "portion",
    is_prep_recipe := false, instructions_raw := none, instructions_structured := none,
    cost_price := none, selling_price_est := none, status := .active, is_public := true,
    owner_id := some "alice", version := 1, root_id := none, description := none,
    image_url := none, summary_feedback := none, created_by := none, updated_by := none,
    rnd_started := false, review_ready := false, created_at := 10, updated_at := 10 }

/-- Database for the C6 witness. -/
def portionWitnessDB : CostDB :=
  { recipes := [portionWitnessRecipe], recipeIngredients := [], ingredients := [],
    recipeRecipes := [] }

/-- The costing result of the C6 witness run: batch cost 0, per-portion
cost null. -/
def portionWitnessRes : CostingResult :=
  { recipe_id := 1, recipe_name := "W", yield_quantity := 2, yield_unit := "portion",
    breakdown := [], sub_recipe_breakdown := [], ingredient_cost := none,
    sub_recipe_cost := none, total_batch_cost := some 0, cost_per_portion := none,
    missing_costs := [] }

/-- C6 witness: the amended statement evaluated on the empty-lines
recipe (batch cost 0 with positive yield gives a null per-portion
cost). -/
theorem C6_witness :
    portionWitnessRes.cost_per_portion =
      if 0 < (portionWitnessRes.breakdown.filterMap CostBreakdownItem.line_cost).sum ∧
          0 < portionWitnessRes.yield_quantity
      then some ((portionWitnessRes.breakdown.filterMap CostBreakdownItem.line_cost).sum /
        portionWitnessRes.yield_quantity)
      else none :=
  C6_cost_per_portion_amended portionWitnessDB 1 portionWitnessRes (by
    simp [calculate_recipe_cost, find_recipe, get_recipe_ingredients, portionWitnessDB,
      portionWitnessRecipe, portionWitnessRes, List.insertionSort])

/-! ## Silent skip of dangling ingredient references (C10) -/

/-- A line whose ingredient row is absent leaves the costing
accumulator untouched. -/
theorem cost_line_skip (db : CostDB) (acc : CostAcc) (ri : RecipeIngredient)
    (h : find_ingredient db.ingredients ri.ingredient_id = none) :
    cost_line db acc ri = acc := by
  unfold cost_line
  rw [h]

/-- C10: a RecipeIngredient line whose `ingredient_id` resolves to no
Ingredient row is skipped entirely by the costing: adding such a line to
the store leaves the whole costing result — breakdown, totals and the
missing list — unchanged, so the batch cost can still be reported as a
number. -/
theorem C10_dangling_ingredient_skipped (db : CostDB) (d : RecipeIngredient) (recipeId : ℕ)
    (h : find_ingredient db.ingredients d.ingredient_id = none) :
    calculate_recipe_cost { db with recipeIngredients := d :: db.recipeIngredients } recipeId =
      calculate_recipe_cost db recipeId := by
  unfold calculate_recipe_cost
  dsimp only
  rw [show cost_line { db with recipeIngredients := d :: db.recipeIngredients } = cost_line db
    from rfl]
  by_cases hd : d.recipe_id = recipeId
  · have hfilter :
        ({ db with recipeIngredients := d :: db.recipeIngredients } : CostDB).recipeIngredients.filter
          (fun ri => ri.recipe_id = recipeId) =
        d :: db.recipeIngredients.filter (fun ri => ri.recipe_id = recipeId) := by
      simp [List.filter_cons, hd]
    have hfold : ∀ acc : CostAcc,
        (get_recipe_ingredients { db with recipeIngredients := d :: db.recipeIngredients }
          recipeId).foldl (cost_line db) acc =
        (get_recipe_ingredients db recipeId).foldl (cost_line db) acc := by
      intro acc
      unfold get_recipe_ingredients
      rw [hfilter]
      rw [List.insertionSort_cons_eq_take_drop]
      rw [List.foldl_append, List.foldl_cons, cost_line_skip db _ d h, ← List.foldl_append]
      rw [List.takeWhile_append_dropWhile]
    rw [hfold]
  · have hfilter :
        ({ db with recipeIngredients := d :: db.recipeIngredients } : CostDB).recipeIngredients.filter
          (fun ri => ri.recipe_id = recipeId) =
        db.recipeIngredients.filter (fun ri => ri.recipe_id = recipeId) := by
      simp [List.filter_cons, hd]
    have hlines : get_recipe_ingredients { db with recipeIngredients := d :: db.recipeIngredients }
        recipeId = get_recipe_ingredients db recipeId := by
      unfold get_recipe_ingredients
      rw [hfilter]
    rw [hlines]

/-- A dangling line: its ingredient id 99 resolves to nothing. -/
def danglingLine : RecipeIngredient :=
  { id := 9, recipe_id := 1, ingredient_id := 99, quantity := 5, unit := "g", sort_order := 0 }

/-- C10 witness: on the witness store the dangling line's ingredient is
unresolvable, inserting the line changes nothing, and the batch cost is
still reported as the number 0. -/
theorem C10_witness :
    find_ingredient portionWitnessDB.ingredients danglingLine.ingredient_id = none ∧
    calculate_recipe_cost
        { portionWitnessDB with
          recipeIngredients := danglingLine :: portionWitnessDB.recipeIngredients } 1 =
      calculate_recipe_cost portionWitnessDB 1 ∧
    (calculate_recipe_cost portionWitnessDB 1).map CostingResult.total_batch_cost =
      some (some 0) :=
  ⟨rfl,
    C10_dangling_ingredient_skipped portionWitnessDB danglingLine 1 rfl,
    by simp [calculate_recipe_cost, find_recipe, get_recipe_ingredients, portionWitnessDB,
      portionWitnessRecipe, List.insertionSort]⟩

/-! ## Unit conversion contract (C7) -/

/-- The conversion table the source selects for a recognized category
(the `conversions` local of `convert_to_base_unit`). -/
def unit_conversions (category : String) : List (String × ℚ) :=
  if category = "mass" then MASS_CONVERSIONS
  else if category = "volume" then VOLUME_CONVERSIONS
  else COUNT_CONVERSIONS

/-- A successful association-list lookup returns the second component
of some member pair. -/
theorem lookup_mem {α β : Type} [BEq α] {u : α} {v : β} :
    ∀ {l : List (α × β)}, l.lookup u = some v → ∃ p ∈ l, p.2 = v := by
  intro l
  induction l with
  | nil =>
    intro h
    simp at h
  | cons p rest ih =>
    intro h
    obtain ⟨k, b⟩ := p
    rw [List.lookup_cons] at h
    cases hbeq : u == k with
    | true =>
      rw [hbeq] at h
      simp only [Option.some.injEq] at h
      exact ⟨(k, b), List.mem_cons_self _ _, h⟩
    | false =>
      rw [hbeq] at h
      obtain ⟨p', hp', hv⟩ := ih h
      exact ⟨p', List.mem_cons_of_mem _ hp', hv⟩

/-- Every factor stored in the conversion tables is nonzero. -/
theorem lookup_unit_conversions_ne_zero (category u : String) (v : ℚ)
    (h : (unit_conversions category).lookup u = some v) : v ≠ 0 := by
  obtain ⟨p, hp, hv⟩ := lookup_mem h
  subst hv
  unfold unit_conversions at hp
  split_ifs at hp
  · simp only [MASS_CONVERSIONS, List.mem_cons, List.not_mem_nil, or_false] at hp
    rcases hp with rfl | rfl | rfl | rfl | rfl <;> norm_num
  · simp only [VOLUME_CONVERSIONS, List.mem_cons, List.not_mem_nil, or_false] at hp
    rcases hp with rfl | rfl | rfl | rfl | rfl | rfl | rfl | rfl <;> norm_num
  · simp only [COUNT_CONVERSIONS, List.mem_cons, List.not_mem_nil, or_false] at hp
    rcases hp with rfl | rfl <;> norm_num

/-- C7: the unit conversion contract.  Case-insensitively equal units
convert to the unchanged quantity; an unrecognized unit on either side
is lenient and also returns the quantity unchanged; two recognized units
of different categories yield null; two recognized units of the same
category scale the quantity by the ratio of their table factors. -/
theorem C7_unit_conversion_contract (q : ℚ) (a b : String) :
    (string_lower a = string_lower b → convert_to_base_unit q a b = some q) ∧
    (get_unit_category a = none ∨ get_unit_category b = none →
      convert_to_base_unit q a b = some q) ∧
    (∀ ca cb, get_unit_category a = some ca → get_unit_category b = some cb → ca ≠ cb →
      convert_to_base_unit q a b = none) ∧
    (∀ c, get_unit_category a = some c → get_unit_category b = some c →
      convert_to_base_unit q a b =
        some (q * ((unit_conversions c).lookup (string_lower a)).getD 1 /
          ((unit_conversions c).lookup (string_lower b)).getD 1)) := by
  refine ⟨?_, ?_, ?_, ?_⟩
  · intro h
    unfold convert_to_base_unit
    rw [if_pos h]
  · intro h
    unfold convert_to_base_unit
    by_cases heq : string_lower a = string_lower b
    · rw [if_pos heq]
    · rw [if_neg heq, get_unit_category_lower a, get_unit_category_lower b]
      rcases h with h | h
      · rw [h]
        cases hcb : get_unit_category b <;> rfl
      · rw [h]
        cases hca : get_unit_category a <;> rfl
  · intro ca cb hca hcb hne
    unfold convert_to_base_unit
    by_cases heq : string_lower a = string_lower b
    · exfalso
      apply hne
      have := congrArg get_unit_category heq
      rw [get_unit_category_lower a, get_unit_category_lower b, hca, hcb] at this
      exact Option.some.inj this
    · rw [if_neg heq, get_unit_category_lower a, get_unit_category_lower b, hca, hcb]
      dsimp only
      rw [if_pos hne]
  · intro c hca hcb
    unfold convert_to_base_unit
    by_cases heq : string_lower a = string_lower b
    · rw [if_pos heq, heq]
      cases hlk : (unit_conversions c).lookup (string_lower b) with
      | none =>
        simp
      | some v =>
        have hv := lookup_unit_conversions_ne_zero c _ v hlk
        simp only [Option.getD_some]
        rw [mul_div_assoc, div_self hv, mul_one]
    · rw [if_neg heq, get_unit_category_lower a, get_unit_category_lower b, hca, hcb]
      dsimp only
      rw [if_neg (fun hcc => hcc rfl)]
      simp [unit_conversions]

/-- C7 witness: 3 kilograms ("KG", case-insensitively) against base
unit grams converts by the mass factors to 3000. -/
theorem C7_witness : convert_to_base_unit 3 "KG" "g" = some 3000 := by
  have h := (C7_unit_conversion_contract 3 "KG" "g").2.2.2 "mass" (by decide) (by decide)
  rw [h]
  simp [unit_conversions, MASS_CONVERSIONS, string_lower_KG_upper, string_lower_g, List.lookup]
  norm_num

/-! ## Idempotent reorder (C8) -/

/-- The single edge of the reorder counterexample, freshly added at
position 1 (`add_sub_recipe` assigns max-position-plus-one, starting
at 1). -/
def reorderEdge : BomEdge :=
  { id := 1, parent_recipe_id := 1, child_recipe_id := 2, quantity := 1,
    unit := .portion, position := 1 }

/-- C8 counterexample: the ids passed are exactly the parent's current
edges in current position order, yet the no-op reorder rewrites the
edge's position from 1 to the 0-based index 0 — the edge table does
change. -/
theorem C8_counterexample :
    (get_sub_recipes [reorderEdge] 1).map BomEdge.id = [1] ∧
    (reorder_sub_recipes [reorderEdge] 1
      ((get_sub_recipes [reorderEdge] 1).map BomEdge.id)).1 ≠ [reorderEdge] := by
  constructor
  · decide
  · decide

/-- Mapping a function that fixes every member leaves a list unchanged. -/
theorem map_eq_self_of_mem {α : Type} {f : α → α} :
    ∀ {l : List α}, (∀ a ∈ l, f a = a) → l.map f = l := by
  intro l
  induction l with
  | nil => intro _; rfl
  | cons a rest ih =>
    intro h
    rw [List.map_cons, h a (List.mem_cons_self a rest),
      ih (fun x hx => h x (List.mem_cons_of_mem a hx))]

/-- The reorder loop is the identity when every id at index `j` of the
supplied order belongs to an edge already positioned at `k + j`. -/
theorem apply_reorder_eq_self (parentRecipeId : ℕ) (edges : List BomEdge) :
    ∀ (ids : List ℕ) (k : ℕ),
      (∀ j (hj : j < ids.length) e, e ∈ edges → e.id = ids.get ⟨j, hj⟩ →
        e.parent_recipe_id = parentRecipeId → e.position = k + j) →
      apply_reorder parentRecipeId edges k ids = edges := by
  intro ids
  induction ids with
  | nil => intro k _; rfl
  | cons lid rest ih =>
    intro k h
    show apply_reorder parentRecipeId
      (edges.map (reorder_update parentRecipeId lid k)) (k + 1) rest = edges
    have hmap : edges.map (reorder_update parentRecipeId lid k) = edges := by
      apply map_eq_self_of_mem
      intro e he
      unfold reorder_update
      by_cases hcond : e.id = lid ∧ e.parent_recipe_id = parentRecipeId
      · rw [if_pos hcond]
        have hpos := h 0 (by simp) e he hcond.1 hcond.2
        rw [Nat.add_zero] at hpos
        rw [← hpos]
      · rw [if_neg hcond]
    rw [hmap]
    apply ih (k + 1)
    intro j hj e he hid hpar
    have := h (j + 1) (by simpa using Nat.succ_lt_succ hj) e he hid hpar
    omega

/-- C8 amended: reorder with the parent's current edge ids in current
position order reassigns each position to its 0-based index, so it is a
no-op exactly when the positions already are `0, 1, 2, ...`; under that
precondition (and distinct primary keys) both the edge table and the
returned listing are unchanged. -/
theorem C8_reorder_noop_amended (edges : List BomEdge) (parentRecipeId : ℕ)
    (hnodup : (edges.map BomEdge.id).Nodup)
    (hpos : ∀ i (hi : i < (get_sub_recipes edges parentRecipeId).length),
      ((get_sub_recipes edges parentRecipeId).get ⟨i, hi⟩).position = i) :
    (reorder_sub_recipes edges parentRecipeId
      ((get_sub_recipes edges parentRecipeId).map BomEdge.id)).1 = edges ∧
    (reorder_sub_recipes edges parentRecipeId
      ((get_sub_recipes edges parentRecipeId).map BomEdge.id)).2 =
      get_sub_recipes edges parentRecipeId := by
  have hmain : apply_reorder parentRecipeId edges 0
      ((get_sub_recipes edges parentRecipeId).map BomEdge.id) = edges := by
    apply apply_reorder_eq_self
    intro j hj e he hid hpar
    have hj' : j < (get_sub_recipes edges parentRecipeId).length := by simpa using hj
    have hid' : e.id = ((get_sub_recipes edges parentRecipeId).get ⟨j, hj'⟩).id := by
      rw [hid]
      exact List.get_map BomEdge.id
    have hmemfilter : e ∈ edges.filter (fun x => x.parent_recipe_id = parentRecipeId) :=
      List.mem_filter.mpr ⟨he, by simp [hpar]⟩
    have hmemsorted : e ∈ get_sub_recipes edges parentRecipeId := by
      unfold get_sub_recipes
      exact (List.mem_insertionSort _).mpr hmemfilter
    have hnodupsorted : ((get_sub_recipes edges parentRecipeId).map BomEdge.id).Nodup := by
      have h1 : List.Sublist
          ((edges.filter (fun x => x.parent_recipe_id = parentRecipeId)).map BomEdge.id)
          (edges.map BomEdge.id) :=
        (List.filter_sublist edges).map BomEdge.id
      have h2 := h1.nodup hnodup
      have h3 : List.Perm ((get_sub_recipes edges parentRecipeId).map BomEdge.id)
          ((edges.filter (fun x => x.parent_recipe_id = parentRecipeId)).map BomEdge.id) :=
        (List.perm_insertionSort position_le _).map BomEdge.id
      exact h3.nodup_iff.mpr h2
    have heq : e = (get_sub_recipes edges parentRecipeId).get ⟨j, hj'⟩ :=
      List.inj_on_of_nodup_map hnodupsorted hmemsorted
        (List.get_mem (get_sub_recipes edges parentRecipeId) j hj') hid'
    rw [heq, Nat.zero_add]
    exact hpos j hj'
  constructor
  · exact hmain
  · show get_sub_recipes (apply_reorder parentRecipeId edges 0
      ((get_sub_recipes edges parentRecipeId).map BomEdge.id)) parentRecipeId =
      get_sub_recipes edges parentRecipeId
    rw [hmain]

/-- First edge of the C8 witness store, already at 0-based position 0. -/
def witnessEdge0 : BomEdge :=
  { id := 1, parent_recipe_id := 1, child_recipe_id := 2, quantity := 1,
    unit := .portion, position := 0 }

/-- Second edge of the C8 witness store, at position 1. -/
def witnessEdge1 : BomEdge :=
  { id := 2, parent_recipe_id := 1, child_recipe_id := 3, quantity := 1,
    unit := .portion, position := 1 }

/-- C8 witness: with positions already `0, 1`, the no-op reorder leaves
the edge table unchanged. -/
theorem C8_witness :
    (reorder_sub_recipes [witnessEdge0, witnessEdge1] 1
      ((get_sub_recipes [witnessEdge0, witnessEdge1] 1).map BomEdge.id)).1 =
      [witnessEdge0, witnessEdge1] :=
  (C8_reorder_noop_amended [witnessEdge0, witnessEdge1] 1 (by decide) (by decide)).1

/-! ## Acyclicity invariant (C5) -/

/-- One BOM containment step: `b` is a direct child of `a`. -/
def bom_step (edges : List BomEdge) (a b : ℕ) : Prop :=
  b ∈ child_recipe_ids edges a

/-- The BOM edge set, as a directed graph over recipe ids, has no
directed cycle. -/
def AcyclicBom (edges : List BomEdge) : Prop :=
  ∀ v, ¬ Relation.TransGen (bom_step edges) v v

/-- Unfolding equation of the BFS on the empty queue. -/
theorem bfs_safe_nil (edges : List BomEdge) (parentId : ℕ) (visited : Finset ℕ) :
    bfs_safe edges parentId [] visited = true := by
  unfold bfs_safe
  rfl

/-- Unfolding equation of the BFS on an already-visited head. -/
theorem bfs_safe_cons_visited (edges : List BomEdge) (parentId current : ℕ) (rest : List ℕ)
    (visited : Finset ℕ) (h : current ∈ visited) :
    bfs_safe edges parentId (current :: rest) visited =
      bfs_safe edges parentId rest visited := by
  conv_lhs => unfold bfs_safe
  rw [dif_pos h]

/-- Unfolding equation of the BFS on a fresh head. -/
theorem bfs_safe_cons_fresh (edges : List BomEdge) (parentId current : ℕ) (rest : List ℕ)
    (visited : Finset ℕ) (h : current ∉ visited) :
    bfs_safe edges parentId (current :: rest) visited =
      if parentId ∈ child_recipe_ids edges current then false
      else bfs_safe edges parentId (rest ++ child_recipe_ids edges current)
        (insert current visited) := by
  conv_lhs => unfold bfs_safe
  rw [dif_neg h]

/-- Soundness of the cycle-check BFS: if the search returns `true`
while the visited set is closed as stated, then no node reachable from
the queue or the visited set has the parent among its children. -/
theorem bfs_safe_sound (edges : List BomEdge) (parentId : ℕ) :
    ∀ (queue : List ℕ) (visited : Finset ℕ),
      bfs_safe edges parentId queue visited = true →
      (∀ w ∈ visited, parentId ∉ child_recipe_ids edges w ∧
        ∀ x ∈ child_recipe_ids edges w, x ∈ visited ∨ x ∈ queue) →
      ∀ a, (a ∈ queue ∨ a ∈ visited) →
        ∀ b, Relation.ReflTransGen (bom_step edges) a b →
          parentId ∉ child_recipe_ids edges b := by
  intro queue visited
  induction queue, visited using bfs_safe.induct edges parentId with
  | case1 visited =>
    intro _ hinv a ha b hab
    rcases ha with ha | ha
    · simp at ha
    · have hclosed : ∀ x y, Relation.ReflTransGen (bom_step edges) x y →
          x ∈ visited → y ∈ visited := by
        intro x y hxy
        induction hxy with
        | refl => exact fun hx => hx
        | tail hxz hstep ih =>
          intro hx
          have hz := ih hx
          rcases (hinv _ hz).2 _ hstep with h | h
          · exact h
          · simp at h
      exact (hinv b (hclosed a b hab ha)).1
  | case2 current rest visited hvis ih =>
    intro hrun hinv a ha b hab
    rw [bfs_safe_cons_visited edges parentId current rest visited hvis] at hrun
    refine ih hrun ?_ a ?_ b hab
    · intro w hw
      refine ⟨(hinv w hw).1, ?_⟩
      intro x hx
      rcases (hinv w hw).2 x hx with h | h
      · exact Or.inl h
      · rcases List.mem_cons.mp h with rfl | h
        · exact Or.inl hvis
        · exact Or.inr h
    · rcases ha with ha | ha
      · rcases List.mem_cons.mp ha with rfl | ha
        · exact Or.inr hvis
        · exact Or.inl ha
      · exact Or.inr ha
  | case3 current rest visited hvis hpar =>
    intro hrun hinv a ha b hab
    rw [bfs_safe_cons_fresh edges parentId current rest visited hvis] at hrun
    rw [if_pos hpar] at hrun
    simp at hrun
  | case4 current rest visited hvis hpar ih =>
    intro hrun hinv a ha b hab
    rw [bfs_safe_cons_fresh edges parentId current rest visited hvis] at hrun
    rw [if_neg hpar] at hrun
    refine ih hrun ?_ a ?_ b hab
    · intro w hw
      rcases Finset.mem_insert.mp hw with rfl | hw
      · refine ⟨hpar, ?_⟩
        intro x hx
        exact Or.inr (List.mem_append.mpr (Or.inr hx))
      · refine ⟨(hinv w hw).1, ?_⟩
        intro x hx
        rcases (hinv w hw).2 x hx with h | h
        · exact Or.inl (Finset.mem_insert_of_mem h)
        · rcases List.mem_cons.mp h with rfl | h
          · exact Or.inl (Finset.mem_insert_self _ _)
          · exact Or.inr (List.mem_append.mpr (Or.inl h))
    · rcases ha with ha | ha
      · rcases List.mem_cons.mp ha with rfl | ha
        · exact Or.inr (Finset.mem_insert_self _ _)
        · exact Or.inl (List.mem_append.mpr (Or.inl ha))
      · exact Or.inr (Finset.mem_insert_of_mem ha)

/-- Membership characterization of the direct-children list. -/
theorem mem_child_recipe_ids (edges : List BomEdge) (a b : ℕ) :
    b ∈ child_recipe_ids edges a ↔
      ∃ e ∈ edges, e.parent_recipe_id = a ∧ e.child_recipe_id = b := by
  unfold child_recipe_ids
  simp only [List.mem_map, List.mem_filter, decide_eq_true_eq]
  constructor
  · rintro ⟨e, ⟨he, hp⟩, hc⟩
    exact ⟨e, he, hp, hc⟩
  · rintro ⟨e, he, hp, hc⟩
    exact ⟨e, ⟨he, hp⟩, hc⟩

/-- A `can_add_subrecipe` success means: no self-reference, and the
parent is not reachable from the child along existing edges. -/
theorem can_add_sound (edges : List BomEdge) (parentId childId : ℕ)
    (h : can_add_subrecipe edges parentId childId = true) :
    parentId ≠ childId ∧
      ¬ Relation.ReflTransGen (bom_step edges) childId parentId := by
  unfold can_add_subrecipe at h
  by_cases hne : parentId = childId
  · rw [if_pos hne] at h
    simp at h
  · rw [if_neg hne] at h
    refine ⟨hne, ?_⟩
    intro hreach
    have hsound := bfs_safe_sound edges parentId [childId] ∅ h
      (by intro w hw; simp at hw) childId (Or.inl (List.mem_cons_self _ _))
    rcases Relation.ReflTransGen.cases_tail hreach with heq | ⟨c, hc, hstep⟩
    · exact hne heq
    · exact hsound c hc hstep

/-- Steps of the extended edge set are either old steps or the new
edge. -/
theorem bom_step_append (edges : List BomEdge) (e : BomEdge) (a b : ℕ) :
    bom_step (edges ++ [e]) a b ↔
      bom_step edges a b ∨ (a = e.parent_recipe_id ∧ b = e.child_recipe_id) := by
  unfold bom_step
  rw [mem_child_recipe_ids, mem_child_recipe_ids]
  constructor
  · rintro ⟨ed, hed, hp, hc⟩
    rcases List.mem_append.mp hed with hed | hed
    · exact Or.inl ⟨ed, hed, hp, hc⟩
    · have hede : ed = e := by simpa using hed
      subst hede
      exact Or.inr ⟨hp.symm, hc.symm⟩
  · rintro (⟨ed, hed, hp, hc⟩ | ⟨ha, hb⟩)
    · exact ⟨ed, List.mem_append.mpr (Or.inl hed), hp, hc⟩
    · exact ⟨e, List.mem_append.mpr (Or.inr (List.mem_cons_self _ _)), ha.symm, hb.symm⟩

/-- Paths of a graph extended by a single edge `p -> c` either avoid
the new edge, or decompose into an old path to `p` and a path from `c`,
provided `p` is not reachable from `c` along old edges. -/
theorem rtg_new_edge_split {r r2 : ℕ → ℕ → Prop} {p c : ℕ}
    (hsub : ∀ x y, r2 x y → r x y ∨ (x = p ∧ y = c))
    (hcp : ¬ Relation.ReflTransGen r c p) :
    ∀ a b, Relation.ReflTransGen r2 a b →
      Relation.ReflTransGen r a b ∨
        (Relation.ReflTransGen r a p ∧ Relation.ReflTransGen r c b) := by
  intro a b h
  induction h using Relation.ReflTransGen.head_induction_on with
  | refl => exact Or.inl .refl
  | head hstep _ ih =>
    rcases hsub _ _ hstep with hr | ⟨rfl, rfl⟩
    · rcases ih with ih | ⟨ih1, ih2⟩
      · exact Or.inl (Relation.ReflTransGen.head hr ih)
      · exact Or.inr ⟨Relation.ReflTransGen.head hr ih1, ih2⟩
    · rcases ih with ih | ⟨ih1, ih2⟩
      · exact Or.inr ⟨.refl, ih⟩
      · exact absurd ih1 hcp

/-- Appending an edge that passed the cycle check keeps the graph
acyclic. -/
theorem add_edge_preserves_acyclic (edges : List BomEdge) (e : BomEdge)
    (hacyc : AcyclicBom edges)
    (hnr : ¬ Relation.ReflTransGen (bom_step edges) e.child_recipe_id e.parent_recipe_id) :
    AcyclicBom (edges ++ [e]) := by
  intro v hcycle
  have hsub : ∀ x y, bom_step (edges ++ [e]) x y →
      bom_step edges x y ∨ (x = e.parent_recipe_id ∧ y = e.child_recipe_id) :=
    fun x y hxy => (bom_step_append edges e x y).mp hxy
  obtain ⟨w, hvw, hwv⟩ := (Relation.TransGen.head'_iff).mp hcycle
  rcases hsub _ _ hvw with hold | ⟨hvp, hwc⟩
  · rcases rtg_new_edge_split hsub hnr w v hwv with hrtg | ⟨hwp, hcv⟩
    · exact hacyc v (Relation.TransGen.head' hold hrtg)
    · exact hnr (hcv.trans (Relation.ReflTransGen.head hold hwp))
  · subst hvp
    subst hwc
    rcases rtg_new_edge_split hsub hnr _ _ hwv with hrtg | ⟨hcp2, _⟩
    · exact hnr hrtg
    · exact hnr hcp2

/-- Characterization of a successful `add_sub_recipe`: the new state is
the old edge list with the created row appended, the row links the
requested parent and child, and the cycle check passed on the old
state. -/
theorem add_sub_recipe_ok (recipes : List Recipe) (edges : List BomEdge)
    (parentRecipeId : ℕ) (data : RecipeRecipeCreate) (edges2 : List BomEdge) (e : BomEdge)
    (h : add_sub_recipe recipes edges parentRecipeId data = .ok (edges2, e)) :
    edges2 = edges ++ [e] ∧ e.parent_recipe_id = parentRecipeId ∧
      e.child_recipe_id = data.child_recipe_id ∧
      can_add_subrecipe edges parentRecipeId data.child_recipe_id = true := by
  unfold add_sub_recipe at h
  split_ifs at h with h1 h2 h3 h4 <;>
    simp only [reduceCtorEq, Except.ok.injEq, Prod.mk.injEq] at h
  obtain ⟨hedges, hE⟩ := h
  subst hE
  exact ⟨hedges.symm, rfl, rfl, h3⟩

/-- Unfolding equation of `apply_adds` on a first operation. -/
theorem apply_adds_cons (recipes : List Recipe) (edges : List BomEdge)
    (op : ℕ × RecipeRecipeCreate) (rest : List (ℕ × RecipeRecipeCreate)) :
    apply_adds recipes edges (op :: rest) =
      apply_adds recipes
        (match add_sub_recipe recipes edges op.1 op.2 with
          | .ok pr => pr.1
          | .error _ => edges) rest := by
  unfold apply_adds
  rw [List.foldl_cons]
  congr 1
  cases add_sub_recipe recipes edges op.1 op.2 with
  | ok pr =>
    obtain ⟨es, e⟩ := pr
    rfl
  | error err => rfl

/-- The empty edge set is acyclic. -/
theorem acyclicBom_nil : AcyclicBom [] := by
  intro v h
  obtain ⟨w, hvw, _⟩ := (Relation.TransGen.head'_iff).mp h
  simp [bom_step, child_recipe_ids] at hvw

/-- C5: acyclicity invariant — starting from an acyclic BOM edge set,
any sequence of `add_sub_recipe` calls (each succeeding or rejected with
cycle/duplicate/not-found, a rejection leaving the table unchanged)
yields an acyclic edge set; in particular a successful add never closes
a cycle through the new edge. -/
theorem C5_acyclicity_invariant (recipes : List Recipe) (edges : List BomEdge)
    (ops : List (ℕ × RecipeRecipeCreate)) (hacyc : AcyclicBom edges) :
    AcyclicBom (apply_adds recipes edges ops) := by
  induction ops generalizing edges with
  | nil => exact hacyc
  | cons op rest ih =>
    rw [apply_adds_cons]
    cases hadd : add_sub_recipe recipes edges op.1 op.2 with
    | error err =>
      dsimp only
      exact ih edges hacyc
    | ok pr =>
      obtain ⟨edges2, e⟩ := pr
      dsimp only
      obtain ⟨heq, hpar, hchild, hcan⟩ := add_sub_recipe_ok recipes edges op.1 op.2 edges2 e hadd
      subst heq
      have hsafe := can_add_sound edges op.1 op.2.child_recipe_id hcan
      have hnr : ¬ Relation.ReflTransGen (bom_step edges) e.child_recipe_id
          e.parent_recipe_id := by
        rw [hpar, hchild]
        exact hsafe.2
      exact ih _ (add_edge_preserves_acyclic edges e hacyc hnr)

/-- Operations for the C5 witness: add B under A, then attempt the
reverse edge (which the cycle check rejects). -/
def c5Ops : List (ℕ × RecipeRecipeCreate) :=
  [(1, { child_recipe_id := 2, quantity := 1, unit := .batch }),
   (2, { child_recipe_id := 1, quantity := 1, unit := .batch })]

/-- C5 witness: running the witness operation sequence from the empty
(acyclic) edge set yields an acyclic edge set. -/
theorem C5_witness : AcyclicBom (apply_adds [costRecipeA, costRecipeB] [] c5Ops) :=
  C5_acyclicity_invariant [costRecipeA, costRecipeB] [] c5Ops acyclicBom_nil
